import Mathlib

/-!
Verification of the event-sourcing core and IAM command handlers of the
repository (zitadel slice, `internal/eventstore/v2` and
`internal/v2/business/iam`).

The Go sources are shallowly embedded: pure helpers become Lean functions,
fallible Go code returns `Except`, pointer-typed arguments become `Option`,
and the effect of calling the persistence port is made observable by
returning, next to the result, the list of batches pushed (resp. the number
of port calls made).
-/

namespace Zitadel

/-- Error values produced by the core; mirrors the error kinds of
`internal/errors` that the embedded code distinguishes (the short code or a
descriptive tag is carried as a string). -/
inductive Err where
  | preconditionFailed (code : String)
  | internal (code : String)
  | invalidQuery (code : String)
  | unknownEventType (eventType : String)
  | other (tag : String)
deriving DecidableEq, Repr

/-- The non-recursive fields of `repository.Event`
(`internal/eventstore/v2/repository`), as used by the eventstore tests:
aggregate id/type, the check-previous flag, the serialised payload
(`none` models `[]byte(nil)` / SQL NULL), audit fields, resource owner,
event type, version tag and the previous-sequence assertion. -/
structure EventFields where
  aggregateID : String
  aggregateType : String
  checkPreviousSequence : Bool
  data : Option String
  editorService : String
  editorUser : String
  resourceOwner : String
  eventType : String
  version : String
  previousSequence : Nat
deriving DecidableEq, Repr

/-- `repository.Event` together with its `PreviousEvent` back-reference.
In Go the back-reference is a pointer set by in-batch linking; here the
linked chain is materialised structurally. -/
inductive RepoEvent : Type where
  | mk (fields : EventFields) (previousEvent : Option RepoEvent)

/-- Field accessor for `RepoEvent`. -/
def RepoEvent.fields : RepoEvent → EventFields
  | .mk f _ => f

/-- The `PreviousEvent` back-reference of a `RepoEvent`. -/
def RepoEvent.previousEvent : RepoEvent → Option RepoEvent
  | .mk _ p => p

/-- Helper of `linkEvents`: links each event to the (already linked)
previous event, threading the predecessor through the list. -/
def linkEventsAux : Option RepoEvent → List EventFields → List RepoEvent
  | _, [] => []
  | prev, f :: rest =>
    let e := RepoEvent.mk f prev
    e :: linkEventsAux (some e) rest

/-- `linkEvents` from the eventstore test file: sets
`events[i].PreviousEvent = events[i-1]` for every `i ≥ 1`; the first event
keeps a nil back-reference.  Because the Go loop mutates shared pointers in
ascending order, the predecessor each event ends up pointing at is itself
already linked, which the functional version reproduces by threading the
linked predecessor. -/
def linkEvents (events : List EventFields) : List RepoEvent :=
  linkEventsAux none events

/-- `combineEventLists` from the eventstore test file: plain concatenation
of the given event lists. -/
def combineEventLists (lists : List (List RepoEvent)) : List RepoEvent :=
  lists.flatten

/-- The top-level shape of a Go payload value handed to `eventData`:
nil interface, raw JSON bytes (with an abstract flag telling whether the
bytes are valid JSON), a struct or map value (with its marshalled JSON text
and a flag telling whether marshalling succeeds, e.g. false for a struct
with a `chan` field), a pointer to such a value, a top-level scalar, or a
pointer to a scalar. -/
inductive Payload where
  | null
  | bytes (s : String) (validJson : Bool)
  | obj (json : String) (marshalable : Bool)
  | ptrObj (json : String) (marshalable : Bool)
  | scalar
  | ptrScalar
deriving DecidableEq, Repr

/-- Modelled from the spec: `eventData` of `internal/eventstore/v2` is
absent from the sources (only its test `Test_eventData` is present).  Per
the spec's JSON payload rules, payloads must marshal as a JSON object
(map or struct-like, also behind a pointer); top-level scalars are rejected
at push time; a nil payload is legal and stored as NULL; raw bytes must be
valid JSON. -/
def eventData : Payload → Except Err (Option String)
  | .null => .ok none
  | .bytes s true => .ok (some s)
  | .bytes _ false => .error (.other "data bytes are not json")
  | .obj s true => .ok (some s)
  | .obj _ false => .error (.other "could not marshal data")
  | .ptrObj s true => .ok (some s)
  | .ptrObj _ false => .error (.other "could not marshal data")
  | .scalar => .error (.other "wrong type of event data")
  | .ptrScalar => .error (.other "wrong type of event data")

/-- An event handed to the push side (the `Event` interface as implemented
by `testEvent` in the eventstore test file): audit fields, event type,
payload and the check-previous flag. -/
structure PushEvent where
  editorService : String
  editorUser : String
  eventType : String
  data : Payload
  shouldCheckPrevious : Bool
deriving Repr

/-- An aggregate handed to `PushAggregates` (the `aggregater` interface as
implemented by `testAggregate` in the eventstore test file). -/
structure Aggregate where
  id : String
  aggregateType : String
  resourceOwner : String
  version : String
  previousSequence : Nat
  events : List PushEvent
deriving Repr

/-- The repository event produced for one push event of an aggregate, with
the serialised payload; fails when `eventData` fails. -/
def eventFromAggregate (agg : Aggregate) (ev : PushEvent) : Except Err EventFields :=
  match eventData ev.data with
  | .error e => .error e
  | .ok d => .ok
      { aggregateID := agg.id
        aggregateType := agg.aggregateType
        checkPreviousSequence := ev.shouldCheckPrevious
        data := d
        editorService := ev.editorService
        editorUser := ev.editorUser
        resourceOwner := agg.resourceOwner
        eventType := ev.eventType
        version := agg.version
        previousSequence := agg.previousSequence }

/-- Modelled from the spec: `Eventstore.aggregatesToEvents` is absent from
the sources; its observable behaviour is fixed by the expected outputs of
`TestEventstore_aggregatesToEvents`, which are built with the in-source
helpers `linkEvents` and `combineEventLists`: every aggregate's events are
serialised with `eventData` (any failure aborts the whole call), linked
among themselves with `linkEvents`, and the per-aggregate lists are
concatenated with `combineEventLists`. -/
def aggregatesToEvents : List Aggregate → Except Err (List RepoEvent)
  | [] => .ok []
  | agg :: rest =>
    match (agg.events.mapM (eventFromAggregate agg)).map linkEvents with
    | .error e => .error e
    | .ok linked =>
      match aggregatesToEvents rest with
      | .error e => .error e
      | .ok others => .ok (linked ++ others)

/-- The payload-less test event of the eventstore test file
(`editorService`, `editorUser`, type `test.event`, nil data). -/
def testEvent (checkPrevious : Bool) : PushEvent :=
  { editorService := "editorService"
    editorUser := "editorUser"
    eventType := "test.event"
    data := .null
    shouldCheckPrevious := checkPrevious }

/-- A `testAggregate` of the eventstore test file: type `test.aggregate`,
resource owner `ro`, version `v1`, previous sequence 0. -/
def testAggregate (id : String) (events : List PushEvent) : Aggregate :=
  { id := id
    aggregateType := "test.aggregate"
    resourceOwner := "ro"
    version := "v1"
    previousSequence := 0
    events := events }

/-- The expected repository-event fields for one test event of aggregate
`id`, as spelled out literally in the test cases of
`TestEventstore_aggregatesToEvents`. -/
def expectedFields (id : String) (checkPrevious : Bool) : EventFields :=
  { aggregateID := id
    aggregateType := "test.aggregate"
    checkPreviousSequence := checkPrevious
    data := none
    editorService := "editorService"
    editorUser := "editorUser"
    resourceOwner := "ro"
    eventType := "test.event"
    version := "v1"
    previousSequence := 0 }

/-- The model reproduces the `one aggregate one event` test case of
`TestEventstore_aggregatesToEvents`. -/
theorem aggregatesToEvents_oneAggregateOneEvent :
    aggregatesToEvents [testAggregate "1" [testEvent false]]
      = .ok [RepoEvent.mk (expectedFields "1" false) none] := rfl

/-- The model reproduces the `one aggregate multiple events` test case of
`TestEventstore_aggregatesToEvents`, whose expected output is built with
`linkEvents`. -/
theorem aggregatesToEvents_oneAggregateTwoEvents :
    aggregatesToEvents [testAggregate "1" [testEvent false, testEvent false]]
      = .ok (linkEvents [expectedFields "1" false, expectedFields "1" false]) := rfl

/-- The model reproduces the `invalid data` test case of
`TestEventstore_aggregatesToEvents`: a top-level scalar payload (the Go
string literal used there) makes the call fail. -/
theorem aggregatesToEvents_invalidData :
    aggregatesToEvents [{ testAggregate "1" [testEvent false] with
        events := [{ testEvent false with data := .scalar }] }]
      = .error (.other "wrong type of event data") := rfl

/-- The model reproduces the `multiple aggregates` test case of
`TestEventstore_aggregatesToEvents`, whose expected output is built with
`combineEventLists` and `linkEvents` exactly as in the test: the two events
of aggregate "1" are linked among themselves and the single event of
aggregate "2" is appended unlinked. -/
theorem aggregatesToEvents_multipleAggregates :
    aggregatesToEvents
        [testAggregate "1" [testEvent false, testEvent false],
         testAggregate "2" [testEvent true]]
      = .ok (combineEventLists
          [linkEvents [expectedFields "1" false, expectedFields "1" false],
           [RepoEvent.mk (expectedFields "2" true) none]]) := rfl

/-- The linked list produced by `linkEventsAux` has one entry per input
event. -/
theorem linkEventsAux_length (prev : Option RepoEvent) (fs : List EventFields) :
    (linkEventsAux prev fs).length = fs.length := by
  induction fs generalizing prev with
  | nil => rfl
  | cons f rest ih => simp [linkEventsAux, ih]

/-- `linkEvents` has one entry per input event. -/
theorem linkEvents_length (fs : List EventFields) :
    (linkEvents fs).length = fs.length :=
  linkEventsAux_length none fs

/-- Inside one linked list, every event's back-reference is the (linked)
event right before it. -/
theorem linkEventsAux_chain (prev : Option RepoEvent) (fs : List EventFields) (i : Nat)
    (h : i + 1 < fs.length) :
    ((linkEventsAux prev fs)[i+1]?).map RepoEvent.previousEvent
      = ((linkEventsAux prev fs)[i]?).map some := by
  induction fs generalizing prev i with
  | nil => simp at h
  | cons f rest ih =>
    match i with
    | 0 =>
      match rest with
      | [] => simp at h
      | f' :: rest' => simp [linkEventsAux, RepoEvent.previousEvent]
    | Nat.succ i' =>
      have h' : i' + 1 < rest.length := by
        simpa using h
      simpa [linkEventsAux] using ih (some (RepoEvent.mk f prev)) i' h'

/-- Claim C1 counterexample: on the batch of the `multiple aggregates` test
case of `TestEventstore_aggregatesToEvents` (two events of aggregate "1"
followed by one event of aggregate "2"), the produced third repository
event — the first event of the second aggregate — carries a nil
`previous_event`, not a back-reference to the last event of the first
aggregate as the claim states. -/
theorem aggregatesToEvents_secondAggregate_first_event_unlinked :
    aggregatesToEvents
        [testAggregate "1" [testEvent false, testEvent false],
         testAggregate "2" [testEvent true]]
      = Except.ok
          [RepoEvent.mk (expectedFields "1" false) none,
           RepoEvent.mk (expectedFields "1" false)
             (some (RepoEvent.mk (expectedFields "1" false) none)),
           RepoEvent.mk (expectedFields "2" true) none] ∧
    RepoEvent.previousEvent (RepoEvent.mk (expectedFields "2" true) none) = none :=
  ⟨rfl, rfl⟩

/-- Claim C1 (amended): in a batch of two aggregates whose payloads all
serialise, `PushAggregates` (via `aggregatesToEvents`) links the
`previous_event` back-references per aggregate: the produced list is the
concatenation of the two per-aggregate linked lists, the first event of the
second aggregate has a nil back-reference, and within the first aggregate
every event points to the immediately preceding event of that same
aggregate. -/
theorem aggregatesToEvents_links_per_aggregate
    (a1 a2 : Aggregate) (fs1 fs2 : List EventFields)
    (h1 : a1.events.mapM (eventFromAggregate a1) = Except.ok fs1)
    (h2 : a2.events.mapM (eventFromAggregate a2) = Except.ok fs2) :
    aggregatesToEvents [a1, a2] = Except.ok (linkEvents fs1 ++ linkEvents fs2) ∧
    (∀ f fs, fs2 = f :: fs →
      (linkEvents fs1 ++ linkEvents fs2)[fs1.length]? = some (RepoEvent.mk f none)) ∧
    (∀ i, i + 1 < fs1.length →
      ((linkEvents fs1)[i+1]?).map RepoEvent.previousEvent
        = ((linkEvents fs1)[i]?).map some) := by
  refine ⟨?_, ?_, ?_⟩
  · simp only [aggregatesToEvents, h1, h2, Except.map]
    simp
  · intro f fs hfs
    subst hfs
    rw [List.getElem?_append_right (by rw [linkEvents_length])]
    simp [linkEvents, linkEventsAux, linkEventsAux_length]
  · intro i hi
    exact linkEventsAux_chain none fs1 i hi

/-- Witness for `aggregatesToEvents_links_per_aggregate` at the concrete
batch of the `multiple aggregates` test case. -/
theorem aggregatesToEvents_links_per_aggregate_witness :
    aggregatesToEvents
        [testAggregate "1" [testEvent false, testEvent false],
         testAggregate "2" [testEvent true]]
      = Except.ok
          (linkEvents [expectedFields "1" false, expectedFields "1" false]
            ++ linkEvents [expectedFields "2" true]) ∧
    (linkEvents [expectedFields "1" false, expectedFields "1" false]
        ++ linkEvents [expectedFields "2" true])[2]?
      = some (RepoEvent.mk (expectedFields "2" true) none) ∧
    ((linkEvents [expectedFields "1" false, expectedFields "1" false])[1]?).map
        RepoEvent.previousEvent
      = ((linkEvents [expectedFields "1" false, expectedFields "1" false])[0]?).map some := by
  have h := aggregatesToEvents_links_per_aggregate
    (testAggregate "1" [testEvent false, testEvent false])
    (testAggregate "2" [testEvent true])
    [expectedFields "1" false, expectedFields "1" false]
    [expectedFields "2" true]
    rfl rfl
  exact ⟨h.1, h.2.1 (expectedFields "2" true) [] rfl, h.2.2 0 (by decide)⟩

/-! ## Event registry and mapper (`RegisterFilterEventMapper`, `mapEvents`) -/

/-- A typed domain event produced by a decoder; only its identity matters
here. -/
structure MappedEvent where
  tag : String
deriving DecidableEq, Repr

/-- A decoder from a stored repository event to a typed event (the
`func(*repository.Event) (Event, error)` mapper signature). -/
def EventMapper : Type := RepoEvent → Except Err MappedEvent

/-- The eventstore's decoder table (its `eventMapper` field), as an
association list from event-type name to decoder. -/
def MapperTable : Type := List (String × EventMapper)

/-- Modelled from the spec: `Eventstore.RegisterFilterEventMapper` is
absent from the sources (only its test is present).  Registration with an
empty type name or a nil decoder (modelled as `none`) is silently ignored;
registering the same type twice replaces the decoder; a new type adds one
entry. -/
def registerFilterEventMapper (table : MapperTable) (eventType : String)
    (mapper : Option EventMapper) : MapperTable :=
  if eventType = "" then table
  else
    match mapper with
    | none => table
    | some f =>
      if table.any (fun p => p.1 == eventType) then
        table.map (fun p => if p.1 == eventType then (p.1, f) else p)
      else
        (eventType, f) :: table

/-- Modelled from the spec: `Eventstore.mapEvents` is absent from the
sources (only its test is present).  Each stored event's type is looked up
in the decoder table; a missing decoder is an UnknownEventType error, a
decoder failure aborts the call, otherwise the typed events are returned in
order. -/
def mapEvents (table : MapperTable) : List RepoEvent → Except Err (List MappedEvent)
  | [] => .ok []
  | e :: rest =>
    match List.lookup e.fields.eventType table with
    | none => .error (.unknownEventType e.fields.eventType)
    | some mapper =>
      match mapper e with
      | .error err => .error err
      | .ok mapped =>
        match mapEvents table rest with
        | .error err => .error err
        | .ok ms => .ok (mapped :: ms)

/-! ## Search-query builder and eventstore entry points -/

/-- The column selector of a search query: full events or the max-sequence
probe. -/
inductive Columns where
  | event
  | maxSequence
deriving DecidableEq, Repr

/-- The search-query factory (`eventstore.SearchQueryFactory`), with the
fields the embedded callers use: column selector, aggregate types,
aggregate ids and data predicates (key/value matches inside the JSON
payload). -/
structure SearchQueryFactory where
  columns : Columns
  aggregateTypes : List String
  aggregateIDs : List String
  eventData : List (String × String)
deriving DecidableEq, Repr

/-- Modelled from the spec: `NewSearchQueryFactory(columns,
aggregateTypes...)` starts a factory with the given column selector and
aggregate types and no further filters. -/
def NewSearchQueryFactory (columns : Columns) (aggregateTypes : List String) :
    SearchQueryFactory :=
  { columns := columns
    aggregateTypes := aggregateTypes
    aggregateIDs := []
    eventData := [] }

/-- Modelled from the spec: the `AggregateIDs` builder method sets the
aggregate-id filter. -/
def SearchQueryFactory.AggregateIDs (f : SearchQueryFactory) (ids : List String) :
    SearchQueryFactory :=
  { f with aggregateIDs := ids }

/-- Modelled from the spec: the `EventData` builder method sets the data
predicates. -/
def SearchQueryFactory.EventData (f : SearchQueryFactory)
    (predicates : List (String × String)) : SearchQueryFactory :=
  { f with eventData := predicates }

/-- Modelled from the spec: query validation shared by `filter` and
`latest_sequence` — a nil factory, or one without at least one aggregate
type, is rejected with InvalidQuery before the store is touched. -/
def buildQuery : Option SearchQueryFactory → Except Err SearchQueryFactory
  | none => .error (.invalidQuery "factory is nil")
  | some f =>
    if f.aggregateTypes.length < 1 then
      .error (.invalidQuery "aggregate types not set")
    else
      .ok f

/-- The persistence port as seen by one eventstore call: the response of
its `filter` and `latest_sequence` operations. -/
structure Repo where
  filterResult : Except Err (List RepoEvent)
  latestSeq : Except Err Nat

/-- A reducer (read-model) as consumed by `FilterToReducer`: the outcomes
of its `AppendEvents` and `Reduce` operations. -/
structure Reducer where
  append : List MappedEvent → Except Err Unit
  reduce : Except Err Unit

/-- Modelled from the spec: `Eventstore.FilterEvents` — validate the query
(InvalidQuery aborts before touching the store), call the port's filter,
map the stored events.  The second component counts the persistence-port
calls made. -/
def filterEvents (repo : Repo) (table : MapperTable)
    (query : Option SearchQueryFactory) : Except Err (List MappedEvent) × Nat :=
  match buildQuery query with
  | .error e => (.error e, 0)
  | .ok _ =>
    match repo.filterResult with
    | .error e => (.error e, 1)
    | .ok events => (mapEvents table events, 1)

/-- Modelled from the spec: `Eventstore.FilterToReducer` — filter the
events, append them to the reducer, then reduce. -/
def filterToReducer (repo : Repo) (table : MapperTable)
    (query : Option SearchQueryFactory) (r : Reducer) : Except Err Unit × Nat :=
  match filterEvents repo table query with
  | (.error e, n) => (.error e, n)
  | (.ok events, n) =>
    match r.append events with
    | .error e => (.error e, n)
    | .ok _ => (r.reduce, n)

/-- Modelled from the spec: `Eventstore.LatestSequence` — validate the
query, then ask the port for the max sequence of the matching events. -/
def latestSequence (repo : Repo) (query : Option SearchQueryFactory) :
    Except Err Nat × Nat :=
  match buildQuery query with
  | .error e => (.error e, 0)
  | .ok _ =>
    match repo.latestSeq with
    | .error e => (.error e, 1)
    | .ok seq => (.ok seq, 1)

/-- Whether a call failed with an InvalidQuery error. -/
def isInvalidQuery {α : Type} : Except Err α → Bool
  | .error (.invalidQuery _) => true
  | _ => false

/-! ## IAM member command handlers (`internal/v2/business/iam/member.go`) -/

/-- A member entry of the IAM read-model.  Modelled from the spec:
`iam_repo.MemberReadModel` is absent from the sources; per the spec a
member carries a user id and roles. -/
structure MemberRM where
  userID : String
  roles : List String
deriving DecidableEq, Repr

/-- Modelled from the spec: the IAM read-model (`iam_repo.ReadModel`) as
far as the member commands inspect it — its current list of members. -/
structure IAMReadModel where
  members : List MemberRM
deriving DecidableEq, Repr

/-- Helper of `memberByUserID`, carrying the running index of the Go
`range` loop. -/
def memberByUserIDAux (idx : Nat) : List MemberRM → String → Int × Option MemberRM
  | [], _ => (-1, none)
  | m :: rest, userID =>
    if m.userID == userID then ((idx : Int), some m)
    else memberByUserIDAux (idx + 1) rest userID

/-- Modelled from the spec: `Members.MemberByUserID` walks the member list
and returns the index of the first member with the given user id together
with the member, or `(-1, nil)` when none matches. -/
def memberByUserID (members : List MemberRM) (userID : String) :
    Int × Option MemberRM :=
  memberByUserIDAux 0 members userID

/-- The command input `iam_model.IAMMember`.  Modelled from the spec:
aggregate id (the IAM id), user id, roles, and an abstract validity flag
standing for `IsValid` (domain-specific validation is an explicit non-goal
of the spec). -/
structure IAMMember where
  aggregateID : String
  userID : String
  roles : List String
  isValid : Bool
deriving DecidableEq, Repr

/-- Events produced by the IAM member command handlers (the `iam_repo`
event constructors are absent from the sources).  Modelled from the spec:
member-added and member-removed deltas. -/
inductive IamEvent where
  | memberAdded (userID : String) (roles : List String)
  | memberRemoved (userID : String)
  | other (tag : String)
deriving DecidableEq, Repr

/-- An aggregate handed to `PushAggregates` by a command handler, reduced
to its pending events. -/
structure IamAggregate where
  events : List IamEvent
deriving DecidableEq, Repr

/-- The environment of one IAM command-handler call: what loading the
read-model (`iamByID`) returns, what `PushAggregates` returns, and what
`AppendAndReduce` (re-folding the returned events into the read-model)
yields.  These collaborators live outside the sources; quantifying over
their outcomes leaves the handler's own control flow — which is in the
sources — as the subject of proof. -/
structure CmdWorld where
  loadIAM : Except Err IAMReadModel
  pushResult : Except Err (List IamEvent)
  appendAndReduce : IAMReadModel → List IamEvent → Except Err IAMReadModel

/-- `Repository.AddIAMMember` from `member.go`: validate the input, load
the read-model, reject an existing member with `IAM-GPhuz`, push the
member-added event, re-fold the returned events, look the member up again
and — exactly as in the source — test the input pointer `member` (not the
looked-up `addedMember`) for nil before returning
`readModelToMember(addedMember)`.  The result pair carries the call's
outcome (the success value being the argument handed to
`readModelToMember`) and the list of aggregates pushed. -/
def addIAMMember (w : CmdWorld) (member : Option IAMMember) :
    Except Err (Option MemberRM) × List IamAggregate :=
  match member with
  | none => (.error (.other "nil pointer dereference"), [])
  | some m =>
    if !m.isValid then
      (.error (.preconditionFailed "IAM-W8m4l"), [])
    else
      match w.loadIAM with
      | .error e => (.error e, [])
      | .ok iam =>
        let idx := (memberByUserID iam.members m.userID).1
        if idx > -1 then
          (.error (.preconditionFailed "IAM-GPhuz"), [])
        else
          let iamAgg : IamAggregate := ⟨[IamEvent.memberAdded m.userID m.roles]⟩
          match w.pushResult with
          | .error e => (.error e, [iamAgg])
          | .ok events =>
            match w.appendAndReduce iam events with
            | .error e => (.error e, [iamAgg])
            | .ok iam2 =>
              let addedMember := (memberByUserID iam2.members m.userID).2
              if member.isNone then
                (.error (.internal "IAM-nuoDN"), [iamAgg])
              else
                (.ok addedMember, [iamAgg])

/-- `Repository.RemoveIAMMember` from `member.go`: load the read-model,
return success immediately when the member is not present, otherwise push
the member-removed event and re-fold the returned events. -/
def removeIAMMember (w : CmdWorld) (member : IAMMember) :
    Except Err Unit × List IamAggregate :=
  match w.loadIAM with
  | .error e => (.error e, [])
  | .ok iam =>
    let i := (memberByUserID iam.members member.userID).1
    if i = -1 then
      (.ok (), [])
    else
      let iamAgg : IamAggregate := ⟨[IamEvent.memberRemoved member.userID]⟩
      match w.pushResult with
      | .error e => (.error e, [iamAgg])
      | .ok events =>
        match w.appendAndReduce iam events with
        | .error e => (.error e, [iamAgg])
        | .ok _ => (.ok (), [iamAgg])

/-- Modelled from the spec: `iam_repo.AggregateType` is the `iam` aggregate
type (the spec's event-type namespace uses the `iam.` prefix and scenario
S4 queries aggregate-type `iam`). -/
def iamAggregateType : String := "iam"

/-- The search query built by `Repository.MemberByID` in `member.go`,
composed exactly as in the source: full event columns and the IAM aggregate
type at construction, then the given aggregate id, then the single data
predicate on `userId`. -/
def memberByIDQuery (iamID userID : String) : SearchQueryFactory :=
  ((NewSearchQueryFactory Columns.event [iamAggregateType]).AggregateIDs
      [iamID]).EventData [("userId", userID)]

/-! ## IDP OIDC configuration write-model (`part_001`) -/

/-- An event as seen by `IDPOIDCConfigWriteModel.AppendEvents`: the two
typed cases it switches on (each carrying its `IDPConfigID`) and the
default case covering every other event type. -/
inductive OIDCEvent where
  | added (idpConfigID : String) (payload : String)
  | changed (idpConfigID : String) (payload : String)
  | other (tag : String)
deriving DecidableEq, Repr

/-- `IDPOIDCConfigWriteModel`: the ids it is scoped to, and the list of
events its inner `oidc.ConfigWriteModel` has received. -/
structure IDPOIDCConfigWriteModel where
  iamID : String
  idpConfigID : String
  inner : List OIDCEvent
deriving DecidableEq, Repr

/-- One iteration of the event loop in `IDPOIDCConfigWriteModel.AppendEvents`
(src `part_001`): an added/changed event whose `IDPConfigID` differs from
the model's is skipped (`continue`); every other event reaches the default
branch and is forwarded unconditionally. -/
def IDPOIDCConfigWriteModel.appendOne (wm : IDPOIDCConfigWriteModel)
    (e : OIDCEvent) : IDPOIDCConfigWriteModel :=
  match e with
  | .added id _ =>
    if wm.idpConfigID ≠ id then wm
    else { wm with inner := wm.inner ++ [e] }
  | .changed id _ =>
    if wm.idpConfigID ≠ id then wm
    else { wm with inner := wm.inner ++ [e] }
  | .other _ => { wm with inner := wm.inner ++ [e] }

/-- `IDPOIDCConfigWriteModel.AppendEvents`: the loop over the given
events. -/
def IDPOIDCConfigWriteModel.appendEvents (wm : IDPOIDCConfigWriteModel)
    (events : List OIDCEvent) : IDPOIDCConfigWriteModel :=
  events.foldl IDPOIDCConfigWriteModel.appendOne wm

/-- Whether `AppendEvents` forwards an event to the inner write-model:
added/changed events are forwarded exactly when their `IDPConfigID` equals
the model's; every other event always is. -/
def IDPOIDCConfigWriteModel.accepts (wm : IDPOIDCConfigWriteModel)
    (e : OIDCEvent) : Bool :=
  match e with
  | .added id _ => wm.idpConfigID == id
  | .changed id _ => wm.idpConfigID == id
  | .other _ => true

/-! ## Helper lemmas on the member lookup -/

/-- When no member matches, the lookup returns `(-1, nil)` from any
starting index. -/
theorem memberByUserIDAux_not_found (idx : Nat) (members : List MemberRM)
    (userID : String)
    (h : members.any (fun m => m.userID == userID) = false) :
    memberByUserIDAux idx members userID = (-1, none) := by
  induction members generalizing idx with
  | nil => rfl
  | cons m rest ih =>
    simp only [List.any_cons, Bool.or_eq_false_iff] at h
    simp [memberByUserIDAux, h.1, ih _ h.2]

/-- When no member matches, `MemberByUserID` returns `(-1, nil)`. -/
theorem memberByUserID_not_found (members : List MemberRM) (userID : String)
    (h : members.any (fun m => m.userID == userID) = false) :
    memberByUserID members userID = (-1, none) :=
  memberByUserIDAux_not_found 0 members userID h

/-- When some member matches, the returned index is non-negative. -/
theorem memberByUserIDAux_found (idx : Nat) (members : List MemberRM)
    (userID : String)
    (h : members.any (fun m => m.userID == userID) = true) :
    (memberByUserIDAux idx members userID).1 > -1 := by
  induction members generalizing idx with
  | nil => simp at h
  | cons m rest ih =>
    by_cases hm : m.userID == userID
    · simp [memberByUserIDAux, hm]
      omega
    · simp only [List.any_cons, hm, Bool.false_or] at h
      simpa [memberByUserIDAux, hm] using ih (idx + 1) h

/-- When some member matches, `MemberByUserID` returns an index above
`-1` — the presence test used by `AddIAMMember`. -/
theorem memberByUserID_found (members : List MemberRM) (userID : String)
    (h : members.any (fun m => m.userID == userID) = true) :
    (memberByUserID members userID).1 > -1 :=
  memberByUserIDAux_found 0 members userID h

/-! ## Claims C2, C3, C4 -/

/-- Claim C2: whenever the loaded read-model already contains a member with
the command's user id, `AddIAMMember` returns the PreconditionFailed error
`IAM-GPhuz` and pushes nothing, so no event is appended. -/
theorem addIAMMember_duplicate_rejected (w : CmdWorld) (member : IAMMember)
    (iam : IAMReadModel)
    (hvalid : member.isValid = true)
    (hload : w.loadIAM = Except.ok iam)
    (hpresent : iam.members.any (fun m => m.userID == member.userID) = true) :
    addIAMMember w (some member)
      = (Except.error (Err.preconditionFailed "IAM-GPhuz"), []) := by
  have hidx := memberByUserID_found iam.members member.userID hpresent
  simp [addIAMMember, hvalid, hload, hidx]

/-- Witness for `addIAMMember_duplicate_rejected`: a read-model already
holding `u1` rejects `AddMember(iam-1, u1, [B])` without pushing. -/
theorem addIAMMember_duplicate_rejected_witness :
    addIAMMember
        { loadIAM := Except.ok ⟨[⟨"u1", ["A"]⟩]⟩
          pushResult := Except.ok []
          appendAndReduce := fun iam _ => Except.ok iam }
        (some ⟨"iam-1", "u1", ["B"], true⟩)
      = (Except.error (Err.preconditionFailed "IAM-GPhuz"), []) :=
  addIAMMember_duplicate_rejected _ _ ⟨[⟨"u1", ["A"]⟩]⟩ rfl rfl (by decide)

/-- Claim C3: every execution of `AddIAMMember` that reaches the post-push
lookup returns `readModelToMember` applied to the looked-up member and
never the Internal error `IAM-nuoDN` — the nil check tests the input
parameter `member`, which is non-nil on this path, instead of the looked-up
`addedMember`; in particular, when the added member is absent from the
re-folded read-model the call still succeeds, returning the conversion of
nil. -/
theorem addIAMMember_memberNotSaved_unreachable (w : CmdWorld)
    (member : IAMMember) (iam iam2 : IAMReadModel) (events : List IamEvent)
    (hvalid : member.isValid = true)
    (hload : w.loadIAM = Except.ok iam)
    (habsent : iam.members.any (fun m => m.userID == member.userID) = false)
    (hpush : w.pushResult = Except.ok events)
    (happ : w.appendAndReduce iam events = Except.ok iam2) :
    (addIAMMember w (some member)).1
        = Except.ok (memberByUserID iam2.members member.userID).2 ∧
    (addIAMMember w (some member)).1 ≠ Except.error (Err.internal "IAM-nuoDN") ∧
    (iam2.members.any (fun m => m.userID == member.userID) = false →
      (addIAMMember w (some member)).1 = Except.ok none) := by
  have hnf := memberByUserID_not_found iam.members member.userID habsent
  have hrun : (addIAMMember w (some member)).1
      = Except.ok (memberByUserID iam2.members member.userID).2 := by
    simp [addIAMMember, hvalid, hload, hnf, hpush, happ]
  refine ⟨hrun, ?_, ?_⟩
  · rw [hrun]
    simp
  · intro habsent2
    rw [hrun, memberByUserID_not_found iam2.members member.userID habsent2]

/-- Witness for `addIAMMember_memberNotSaved_unreachable`: adding `u1` to
an empty read-model whose re-fold also comes back without `u1` returns
success on the nil conversion, not `IAM-nuoDN`. -/
theorem addIAMMember_memberNotSaved_unreachable_witness :
    (addIAMMember
        { loadIAM := Except.ok ⟨[]⟩
          pushResult := Except.ok [IamEvent.memberAdded "u1" ["A"]]
          appendAndReduce := fun iam _ => Except.ok iam }
        (some ⟨"iam-1", "u1", ["A"], true⟩)).1
      = Except.ok none ∧
    (addIAMMember
        { loadIAM := Except.ok ⟨[]⟩
          pushResult := Except.ok [IamEvent.memberAdded "u1" ["A"]]
          appendAndReduce := fun iam _ => Except.ok iam }
        (some ⟨"iam-1", "u1", ["A"], true⟩)).1
      ≠ Except.error (Err.internal "IAM-nuoDN") := by
  have h := addIAMMember_memberNotSaved_unreachable
    { loadIAM := Except.ok ⟨[]⟩
      pushResult := Except.ok [IamEvent.memberAdded "u1" ["A"]]
      appendAndReduce := fun iam _ => Except.ok iam }
    ⟨"iam-1", "u1", ["A"], true⟩ ⟨[]⟩ ⟨[]⟩ [IamEvent.memberAdded "u1" ["A"]]
    rfl rfl (by decide) rfl rfl
  exact ⟨h.2.2 (by decide), h.2.1⟩

/-- Claim C4: when the loaded read-model has no member with the given user
id, `RemoveIAMMember` returns success without pushing, leaving the event
log unchanged. -/
theorem removeIAMMember_absent_noop (w : CmdWorld) (member : IAMMember)
    (iam : IAMReadModel)
    (hload : w.loadIAM = Except.ok iam)
    (habsent : iam.members.any (fun m => m.userID == member.userID) = false) :
    removeIAMMember w member = (Except.ok (), []) := by
  have h := memberByUserID_not_found iam.members member.userID habsent
  simp [removeIAMMember, hload, h]

/-- Witness for `removeIAMMember_absent_noop`: removing `u99` from a
read-model holding only `u1` is a successful no-op. -/
theorem removeIAMMember_absent_noop_witness :
    removeIAMMember
        { loadIAM := Except.ok ⟨[⟨"u1", ["A"]⟩]⟩
          pushResult := Except.ok []
          appendAndReduce := fun iam _ => Except.ok iam }
        ⟨"iam-1", "u99", [], true⟩
      = (Except.ok (), []) :=
  removeIAMMember_absent_noop _ _ ⟨[⟨"u1", ["A"]⟩]⟩ rfl (by decide)

/-! ## Claims C5, C6 -/

/-- A list containing an event without a registered decoder can never map
successfully. -/
theorem mapEvents_no_ok_of_unknown (table : MapperTable) (e : RepoEvent)
    (h : List.lookup e.fields.eventType table = none) :
    ∀ events, e ∈ events → ∀ out, mapEvents table events ≠ Except.ok out := by
  intro events
  induction events with
  | nil =>
    intro hmem
    cases hmem
  | cons x rest ih =>
    intro hmem out hcontra
    rcases List.mem_cons.mp hmem with he | he
    · subst he
      simp [mapEvents, h] at hcontra
    · cases hx : List.lookup x.fields.eventType table with
      | none => simp [mapEvents, hx] at hcontra
      | some mapper =>
        cases hm : mapper x with
        | error err => simp [mapEvents, hx, hm] at hcontra
        | ok mapped =>
          cases hrest : mapEvents table rest with
          | error err => simp [mapEvents, hx, hm, hrest] at hcontra
          | ok ms => exact ih he ms hrest

/-- Claim C5: a stored event whose type has no registered decoder makes
`mapEvents` — and hence any read traversing it — return an UnknownEventType
error; no mapped events are produced. -/
theorem mapEvents_unknownEventType (table : MapperTable) (e : RepoEvent)
    (events : List RepoEvent)
    (h : List.lookup e.fields.eventType table = none)
    (hmem : e ∈ events) :
    mapEvents table [e] = Except.error (Err.unknownEventType e.fields.eventType) ∧
    ∀ out, mapEvents table events ≠ Except.ok out :=
  ⟨by simp [mapEvents, h], fun out => mapEvents_no_ok_of_unknown table e h events hmem out⟩

/-- Witness for `mapEvents_unknownEventType`: an event of the unregistered
type `test.event` fails against the empty decoder table. -/
theorem mapEvents_unknownEventType_witness :
    mapEvents [] [RepoEvent.mk (expectedFields "1" false) none]
      = Except.error (Err.unknownEventType "test.event") ∧
    ∀ out, mapEvents [] [RepoEvent.mk (expectedFields "1" false) none]
      ≠ Except.ok out := by
  have h := mapEvents_unknownEventType []
    (RepoEvent.mk (expectedFields "1" false) none)
    [RepoEvent.mk (expectedFields "1" false) none]
    rfl (List.mem_singleton.mpr rfl)
  exact h

/-- Claim C6: a missing search query — a nil factory or one without at
least one aggregate type — makes `FilterEvents`, `FilterToReducer` and
`LatestSequence` return an InvalidQuery error, with zero calls to the
persistence port. -/
theorem invalidQuery_rejected_without_store (repo : Repo) (table : MapperTable)
    (r : Reducer) (query : Option SearchQueryFactory)
    (hbad : query = none ∨ ∃ f, query = some f ∧ f.aggregateTypes = []) :
    isInvalidQuery (filterEvents repo table query).1 = true ∧
    (filterEvents repo table query).2 = 0 ∧
    isInvalidQuery (filterToReducer repo table query r).1 = true ∧
    (filterToReducer repo table query r).2 = 0 ∧
    isInvalidQuery (latestSequence repo query).1 = true ∧
    (latestSequence repo query).2 = 0 := by
  rcases hbad with hq | ⟨f, hq, hf⟩ <;> subst hq <;>
    simp [filterEvents, filterToReducer, latestSequence, buildQuery,
      isInvalidQuery, *]

/-- Witness for `invalidQuery_rejected_without_store` at the nil query
factory. -/
theorem invalidQuery_rejected_without_store_witness :
    isInvalidQuery (filterEvents ⟨Except.ok [], Except.ok 0⟩ [] none).1 = true ∧
    (filterEvents ⟨Except.ok [], Except.ok 0⟩ [] none).2 = 0 ∧
    isInvalidQuery
      (filterToReducer ⟨Except.ok [], Except.ok 0⟩ [] none
        ⟨fun _ => Except.ok (), Except.ok ()⟩).1 = true ∧
    (filterToReducer ⟨Except.ok [], Except.ok 0⟩ [] none
        ⟨fun _ => Except.ok (), Except.ok ()⟩).2 = 0 ∧
    isInvalidQuery (latestSequence ⟨Except.ok [], Except.ok 0⟩ none).1 = true ∧
    (latestSequence ⟨Except.ok [], Except.ok 0⟩ none).2 = 0 :=
  invalidQuery_rejected_without_store ⟨Except.ok [], Except.ok 0⟩ []
    ⟨fun _ => Except.ok (), Except.ok ()⟩ none (Or.inl rfl)

/-! ## Claims C7, C8, C9 -/

/-- Claim C7: at push time, `eventData` accepts a payload that marshals as
a JSON object (a struct or map value, also behind a pointer, or valid JSON
bytes), maps a nil payload to null data without error, and rejects a
top-level scalar or pointer to scalar with an error. -/
theorem eventData_jsonRules (s : String) :
    eventData (Payload.obj s true) = Except.ok (some s) ∧
    eventData (Payload.ptrObj s true) = Except.ok (some s) ∧
    eventData (Payload.bytes s true) = Except.ok (some s) ∧
    eventData Payload.null = Except.ok none ∧
    eventData Payload.scalar = Except.error (Err.other "wrong type of event data") ∧
    eventData Payload.ptrScalar = Except.error (Err.other "wrong type of event data") :=
  ⟨rfl, rfl, rfl, rfl, rfl, rfl⟩

/-- Claim C8: registering with an empty event-type name or a nil mapper
leaves the decoder table unchanged without error, while registering a valid
pair whose type is not yet present adds exactly one entry, found under its
type. -/
theorem registerFilterEventMapper_ignores_invalid (table : MapperTable)
    (eventType : String) (f : EventMapper)
    (hfresh : table.any (fun p => p.1 == eventType) = false)
    (hne : eventType ≠ "") :
    registerFilterEventMapper table "" (some f) = table ∧
    registerFilterEventMapper table eventType none = table ∧
    (registerFilterEventMapper table eventType (some f)).length
      = table.length + 1 ∧
    List.lookup eventType (registerFilterEventMapper table eventType (some f))
      = some f := by
  refine ⟨rfl, ?_, ?_, ?_⟩
  · simp [registerFilterEventMapper, hne]
  · simp [registerFilterEventMapper, hne, hfresh]
  · simp [registerFilterEventMapper, hne, hfresh, List.lookup]

/-- Witness for `registerFilterEventMapper_ignores_invalid`: the empty
table, the type `event.type` and a constant mapper. -/
theorem registerFilterEventMapper_ignores_invalid_witness :
    registerFilterEventMapper [] "" (some fun _ => Except.ok ⟨"hodor"⟩) = [] ∧
    registerFilterEventMapper [] "event.type" none = [] ∧
    (registerFilterEventMapper [] "event.type"
        (some fun _ => Except.ok ⟨"hodor"⟩)).length = 0 + 1 ∧
    List.lookup "event.type"
        (registerFilterEventMapper [] "event.type"
          (some fun _ => Except.ok ⟨"hodor"⟩))
      = some fun _ => Except.ok ⟨"hodor"⟩ := by
  have h := registerFilterEventMapper_ignores_invalid []
    "event.type" (fun _ => Except.ok ⟨"hodor"⟩) rfl (by decide)
  exact ⟨h.1, h.2.1, h.2.2.1, h.2.2.2⟩

/-- Claim C9: the query `MemberByID(iamID, userID)` hands to
`FilterToReducer` selects full event columns, exactly the IAM aggregate
type, the aggregate id `iamID`, and the single data predicate
`userId == userID`. -/
theorem memberByIDQuery_shape (iamID userID : String) :
    (memberByIDQuery iamID userID).columns = Columns.event ∧
    (memberByIDQuery iamID userID).aggregateTypes = [iamAggregateType] ∧
    iamAggregateType = "iam" ∧
    (memberByIDQuery iamID userID).aggregateIDs = [iamID] ∧
    (memberByIDQuery iamID userID).eventData = [("userId", userID)] :=
  ⟨rfl, rfl, rfl, rfl, rfl⟩

/-! ## Claim C10 -/

/-- Appending one event does not change the model's configuration id. -/
theorem appendOne_idpConfigID (wm : IDPOIDCConfigWriteModel) (e : OIDCEvent) :
    (wm.appendOne e).idpConfigID = wm.idpConfigID := by
  cases e with
  | added id p =>
    by_cases h : wm.idpConfigID ≠ id <;>
      simp [IDPOIDCConfigWriteModel.appendOne, h]
  | changed id p =>
    by_cases h : wm.idpConfigID ≠ id <;>
      simp [IDPOIDCConfigWriteModel.appendOne, h]
  | other t => rfl

/-- Appending one event extends the inner model's events by the event when
it is accepted and by nothing otherwise. -/
theorem appendOne_inner (wm : IDPOIDCConfigWriteModel) (e : OIDCEvent) :
    (wm.appendOne e).inner
      = wm.inner ++ (if wm.accepts e then [e] else []) := by
  cases e with
  | added id p =>
    by_cases h : wm.idpConfigID = id <;>
      simp [IDPOIDCConfigWriteModel.appendOne, IDPOIDCConfigWriteModel.accepts, h]
  | changed id p =>
    by_cases h : wm.idpConfigID = id <;>
      simp [IDPOIDCConfigWriteModel.appendOne, IDPOIDCConfigWriteModel.accepts, h]
  | other t => simp [IDPOIDCConfigWriteModel.appendOne, IDPOIDCConfigWriteModel.accepts]

/-- Claim C10: `IDPOIDCConfigWriteModel.AppendEvents` forwards to the inner
`ConfigWriteModel` exactly the events it accepts, in order: an added or
changed event if and only if its `IDPConfigID` equals the model's
`idpConfigID`, and every event of any other type unconditionally. -/
theorem IDPOIDCConfigWriteModel_appendEvents_filters
    (wm : IDPOIDCConfigWriteModel) (events : List OIDCEvent) :
    ((wm.appendEvents events).inner
        = wm.inner ++ events.filter wm.accepts) ∧
    (∀ id p, wm.accepts (OIDCEvent.added id p) = (wm.idpConfigID == id)) ∧
    (∀ id p, wm.accepts (OIDCEvent.changed id p) = (wm.idpConfigID == id)) ∧
    (∀ t, wm.accepts (OIDCEvent.other t) = true) := by
  refine ⟨?_, fun id p => rfl, fun id p => rfl, fun t => rfl⟩
  induction events generalizing wm with
  | nil => simp [IDPOIDCConfigWriteModel.appendEvents]
  | cons e rest ih =>
    have hacc : (wm.appendOne e).accepts = wm.accepts := by
      funext x
      cases x <;>
        simp [IDPOIDCConfigWriteModel.accepts, appendOne_idpConfigID]
    have hstep : (wm.appendEvents (e :: rest)).inner
        = ((wm.appendOne e).appendEvents rest).inner := rfl
    rw [hstep, ih (wm.appendOne e), hacc, appendOne_inner]
    by_cases hae : wm.accepts e <;>
      simp [hae, List.filter_cons]

end Zitadel
